import Mathlib

/-!
Verification of the PowerPC MMU memory-access layer of this repository
(Source/Core/Core/PowerPC/MMU.h). The templated host-access facade
(HostTryRead, HostTryWrite, HostWrite, Write) is embedded directly from the
header. The out-of-line bodies (ReadFromHardware, WriteToHardware,
TranslateAddress, TranslatePageAddress, HostIsRAMAddress) live in MMU.cpp,
which is not part of the source tree given here; those are modelled from the
specification and are marked as such in their doc comments. Machine integers
are modelled as Nat with explicit reductions modulo 2 ^ 32 where 32-bit
wrap-around matters; guest memory is a byte function Nat to Nat.
-/

/-- Address space requested for a host access, from enum class
RequestedAddressSpace in MMU.h: Effective (whatever the current MMU state
is), Physical (as if the MMU was turned off), Virtual (specifically want
MMU turned on, fails if off). -/
inductive RequestedAddressSpace
  | Effective
  | Physical
  | Virtual
deriving DecidableEq

/-- Result of a successful host read, from struct ReadResult in MMU.h:
the translated flag records whether the address had to be translated
(treated as virtual) or not (treated as physical), plus the value read. -/
structure ReadResult (T : Type) where
  translated : Bool
  value : T
deriving DecidableEq

/-- Result of a successful host write, from struct WriteResult in MMU.h. -/
structure WriteResult where
  translated : Bool
deriving DecidableEq

/-- BAT_INDEX_SHIFT from MMU.h: BAT pages are 2 ^ 17 bytes. -/
def BAT_INDEX_SHIFT : Nat := 17

/-- BAT_PAGE_SIZE from MMU.h: 1 << BAT_INDEX_SHIFT. -/
def BAT_PAGE_SIZE : Nat := 1 <<< BAT_INDEX_SHIFT

/-- BAT_PAGE_COUNT from MMU.h: 1 << (32 - BAT_INDEX_SHIFT); the number of
entries of a BatTable (std::array of u32 of this many elements). -/
def BAT_PAGE_COUNT : Nat := 1 <<< (32 - BAT_INDEX_SHIFT)

/-- BAT_MAPPED_BIT from MMU.h. -/
def BAT_MAPPED_BIT : Nat := 0x1

/-- BAT_PHYSICAL_BIT from MMU.h. -/
def BAT_PHYSICAL_BIT : Nat := 0x2

/-- BAT_WI_BIT from MMU.h. -/
def BAT_WI_BIT : Nat := 0x4

/-- BAT_RESULT_MASK from MMU.h: UINT32_C(~0x7) = 0xFFFFFFF8. -/
def BAT_RESULT_MASK : Nat := 0xFFFFFFF8

/-- The index into a BatTable used by the translation path: the page number,
i.e. the address shifted right by BAT_INDEX_SHIFT (a u32 address, hence the
reduction modulo 2 ^ 32). -/
def batIndex (address : Nat) : Nat := (address % 2 ^ 32) >>> BAT_INDEX_SHIFT

/-- Translation mode, from enum class XCheckTLBFlag in MMU.h. -/
inductive XCheckTLBFlag
  | NoException
  | Read
  | Write
  | Opcode
  | OpcodeNoException
deriving DecidableEq

/-- Whether a flag is one of the lookup-only probing modes. Modelled from
the spec: MMU.cpp has this gate for exception raising and for the update of
page-table-entry referenced and changed bits. -/
def IsNoExceptionFlag : XCheckTLBFlag → Bool
  | XCheckTLBFlag.NoException => true
  | XCheckTLBFlag.OpcodeNoException => true
  | _ => false

/-- Whether a flag is an instruction-fetch mode (selects the IBAT table
rather than the DBAT table). Modelled from the spec. -/
def IsOpcodeFlag : XCheckTLBFlag → Bool
  | XCheckTLBFlag.Opcode => true
  | XCheckTLBFlag.OpcodeNoException => true
  | _ => false

/-- Kind of a translation outcome, from MMU::TranslateAddressResultEnum in
MMU.h. The declaration order fixes the underlying values 0, 1, 2, 3. -/
inductive TranslateAddressResultEnum
  | BAT_TRANSLATED
  | PAGE_TABLE_TRANSLATED
  | DIRECT_STORE_SEGMENT
  | PAGE_FAULT
deriving DecidableEq

/-- Underlying u8 value of a TranslateAddressResultEnum, in declaration
order as in MMU.h. -/
def TranslateAddressResultEnum.toNat : TranslateAddressResultEnum → Nat
  | TranslateAddressResultEnum.BAT_TRANSLATED => 0
  | TranslateAddressResultEnum.PAGE_TABLE_TRANSLATED => 1
  | TranslateAddressResultEnum.DIRECT_STORE_SEGMENT => 2
  | TranslateAddressResultEnum.PAGE_FAULT => 3

/-- Outcome of a full address translation, from MMU::TranslateAddressResult
in MMU.h: resolved physical address, result kind, and the wi flag (set when
the view of memory is write-through or cache-inhibited). -/
structure TranslateAddressResult where
  address : Nat
  result : TranslateAddressResultEnum
  wi : Bool
deriving DecidableEq

/-- MMU::TranslateAddressResult::Success from MMU.h:
result <= PAGE_TABLE_TRANSLATED on the underlying enum values. -/
def TranslateAddressResult.Success (r : TranslateAddressResult) : Bool :=
  decide (r.result.toNat ≤ TranslateAddressResultEnum.PAGE_TABLE_TRANSLATED.toNat)

/-- MMU::EffectiveAddress from MMU.h: a bit-field union over a u32 guest
address. Only the raw Hex value is stored; the bit fields are accessors. -/
structure EffectiveAddress where
  Hex : Nat
deriving DecidableEq

/-- Constructor EffectiveAddress(u32 address) : Hex{address}. The modulo
models the u32 width of the stored value. -/
def EffectiveAddress.ofAddress (address : Nat) : EffectiveAddress :=
  ⟨address % 2 ^ 32⟩

/-- BitField<0, 12, u32> offset from MMU.h. -/
def EffectiveAddress.offset (a : EffectiveAddress) : Nat := a.Hex % 2 ^ 12

/-- BitField<12, 16, u32> page_index from MMU.h. -/
def EffectiveAddress.page_index (a : EffectiveAddress) : Nat :=
  (a.Hex >>> 12) % 2 ^ 16

/-- BitField<22, 6, u32> API from MMU.h. -/
def EffectiveAddress.API (a : EffectiveAddress) : Nat := (a.Hex >>> 22) % 2 ^ 6

/-- BitField<28, 4, u32> SR from MMU.h. -/
def EffectiveAddress.SR (a : EffectiveAddress) : Nat := (a.Hex >>> 28) % 2 ^ 4

/-- Modelled from the spec: a page-table entry as seen by the walk in
MMU.cpp (not under src/). valid and the api field take part in the match;
vsid ties the entry to the segment; rpn is the physical page number; r and
c are the referenced and changed bits; wi is the write-through or
cache-inhibited view flag. -/
structure PTE where
  valid : Bool
  vsid : Nat
  api : Nat
  rpn : Nat
  r : Bool
  c : Bool
  wi : Bool
deriving DecidableEq

/-- Modelled from the spec: a segment register, with the direct-store flag
T and the virtual segment id VSID consulted by the page-table walk in
MMU.cpp (not under src/). -/
structure SegmentRegister where
  T : Bool
  VSID : Nat
deriving DecidableEq

/-- Guest CPU exceptions this layer can raise: data or instruction storage
interrupt. -/
inductive ExceptionKind
  | DSI
  | ISI
deriving DecidableEq

/-- The machine state the MMU layer observes and mutates: the
data-translation-enable bit MSR.DR, the segment registers, the two BAT
lookup tables (entries as raw u32 words, a function from page number), the
page-table entry groups addressed by hash, the physical byte memory, the
MMIO region predicate and MMIO read behaviour of the external memory
manager, the HostIsRAMAddress oracle (its body is in MMU.cpp, not under
src/, so it is kept abstract as a state component), and the list of raised
guest exceptions, most recent first. -/
structure MachineState where
  msr_DR : Bool
  sr : Nat → SegmentRegister
  dbat : Nat → Nat
  ibat : Nat → Nat
  ptegs : Nat → List PTE
  ram : Nat → Nat
  mmio : Nat → Bool
  mmioVal : Nat → Nat → Nat
  isRAM : RequestedAddressSpace → Nat → Bool
  exceptions : List ExceptionKind

/-- Modelled from the spec: the primary page-table hash combining the
segment VSID with the page index, used to locate a page-table entry group
(MMU.cpp, not under src/). -/
def pteHash (vsid pidx : Nat) : Nat := vsid ^^^ pidx

/-- First page-table entry of a group matching the lookup: valid, with the
given abbreviated page index and segment id. First match wins. -/
def findMatch (api vsid : Nat) : List PTE → Option PTE
  | [] => none
  | p :: rest =>
      if p.valid && (p.api == api) && (p.vsid == vsid) then some p
      else findMatch api vsid rest

/-- Apply f to the first matching entry of a group, leaving the rest
unchanged (the write-back of referenced and changed bits). -/
def updateMatch (api vsid : Nat) (f : PTE → PTE) : List PTE → List PTE
  | [] => []
  | p :: rest =>
      if p.valid && (p.api == api) && (p.vsid == vsid) then f p :: rest
      else p :: updateMatch api vsid f rest

/-- Modelled from the spec: the referenced bit is set on any
non-probing lookup and the changed bit additionally on a write; probing
modes leave the entry untouched (MMU.cpp, not under src/). -/
def setPteBits (flag : XCheckTLBFlag) (p : PTE) : PTE :=
  if IsNoExceptionFlag flag then p
  else if flag = XCheckTLBFlag.Write then { p with r := true, c := true }
  else { p with r := true }

/-- Store one byte at a u32 physical address (values reduced to byte
range). -/
def updateByte (ram : Nat → Nat) (addr b : Nat) : Nat → Nat :=
  fun x => if x = addr % 2 ^ 32 then b % 2 ^ 8 else ram x

/-- Big-endian store of the low size bytes of v starting at addr,
most-significant byte first (the guest is big-endian). -/
def writeBytesBE (ram : Nat → Nat) (addr : Nat) : Nat → Nat → (Nat → Nat)
  | 0, _ => ram
  | n + 1, v => writeBytesBE (updateByte ram addr (v >>> (8 * n))) (addr + 1) n v

/-- Big-endian load of size bytes starting at addr. -/
def readBytesBE (ram : Nat → Nat) (addr : Nat) : Nat → Nat
  | 0 => 0
  | n + 1 => (ram (addr % 2 ^ 32) % 2 ^ 8) * 2 ^ (8 * n) + readBytesBE ram (addr + 1) n

/-- Modelled from the spec: raw physical write of size bytes; a physical
address in an MMIO region dispatches to the external memory manager
instead of touching RAM (the device effect is outside this model). -/
def writePhysical (s : MachineState) (phys data size : Nat) : MachineState :=
  if s.mmio phys then s
  else { s with ram := writeBytesBE s.ram phys size data }

/-- Modelled from the spec: raw physical read of size bytes; an MMIO
address yields the value supplied by the external memory manager. -/
def readPhysical (s : MachineState) (phys size : Nat) : Nat :=
  if s.mmio phys then s.mmioVal phys size
  else readBytesBE s.ram phys size

/-- Modelled from the spec: raise the guest exception matching the access
kind of a translation failure: DSI for data modes, ISI for instruction
fetch; probing modes raise nothing. -/
def raiseTranslationFault (flag : XCheckTLBFlag) (s : MachineState) : MachineState :=
  match flag with
  | XCheckTLBFlag.Read => { s with exceptions := ExceptionKind.DSI :: s.exceptions }
  | XCheckTLBFlag.Write => { s with exceptions := ExceptionKind.DSI :: s.exceptions }
  | XCheckTLBFlag.Opcode => { s with exceptions := ExceptionKind.ISI :: s.exceptions }
  | _ => s

/-- Modelled from the spec: MMU::TranslatePageAddress (MMU.cpp, not under
src/). Reads the segment register selected by the address; a direct-store
segment ends translation with DIRECT_STORE_SEGMENT; otherwise the VSID and
page index are hashed to locate a page-table entry group which is scanned
for a matching valid entry. On a hit the referenced bit (and the changed
bit on a write) is written back unless the mode is a probing mode, and the
physical address is the entry page number glued to the page offset. No
match is a PAGE_FAULT. -/
def MMU.TranslatePageAddress (flag : XCheckTLBFlag) (s : MachineState)
    (address : EffectiveAddress) : TranslateAddressResult × MachineState :=
  let sreg := s.sr address.SR
  if sreg.T then
    (⟨0, TranslateAddressResultEnum.DIRECT_STORE_SEGMENT, false⟩, s)
  else
    let h := pteHash sreg.VSID address.page_index
    match findMatch address.API sreg.VSID (s.ptegs h) with
    | some pte =>
        let s1 :=
          if IsNoExceptionFlag flag then s
          else
            { s with
              ptegs := fun i =>
                if i = h then updateMatch address.API sreg.VSID (setPteBits flag) (s.ptegs i)
                else s.ptegs i }
        (⟨(pte.rpn <<< 12) ||| address.offset,
          TranslateAddressResultEnum.PAGE_TABLE_TRANSLATED, pte.wi⟩, s1)
    | none => (⟨0, TranslateAddressResultEnum.PAGE_FAULT, false⟩, s)

/-- Modelled from the spec: MMU::TranslateAddress (MMU.cpp, not under
src/). The BAT table for the access kind (IBAT for instruction fetch, DBAT
otherwise) is consulted first at the page number of the address; a mapped
entry short-circuits with BAT_TRANSLATED, physical address the entry base
(low flag bits masked off) OR the page offset, wi from the entry. Otherwise
the paged translation runs. -/
def MMU.TranslateAddress (flag : XCheckTLBFlag) (s : MachineState)
    (address : Nat) : TranslateAddressResult × MachineState :=
  let bat := (if IsOpcodeFlag flag then s.ibat else s.dbat) (batIndex address)
  if bat &&& BAT_MAPPED_BIT ≠ 0 then
    (⟨(bat &&& BAT_RESULT_MASK) ||| (address &&& (BAT_PAGE_SIZE - 1)),
      TranslateAddressResultEnum.BAT_TRANSLATED, bat &&& BAT_WI_BIT ≠ 0⟩, s)
  else
    MMU.TranslatePageAddress flag s (EffectiveAddress.ofAddress address)

/-- Modelled from the spec: MMU::WriteToHardware (MMU.cpp, not under src/).
If never_translate holds or data translation is architecturally off
(MSR.DR clear) the address is used as physical directly; otherwise it is
translated under the given mode, a failure raising the corresponding
guest fault in excepting modes and silently doing nothing in probing
modes. The successful access stores the low size bytes of the u32 data
big-endian at the resolved physical address (accesses crossing a
translation-page boundary are not decomposed here; no claim exercises
them). -/
def MMU.WriteToHardware (flag : XCheckTLBFlag) (never_translate : Bool)
    (s : MachineState) (em_address data size : Nat) : MachineState :=
  if never_translate || !s.msr_DR then
    writePhysical s (em_address % 2 ^ 32) data size
  else
    match MMU.TranslateAddress flag s em_address with
    | (res, s1) =>
        if res.Success then writePhysical s1 res.address data size
        else if IsNoExceptionFlag flag then s1
        else raiseTranslationFault flag s1

/-- Modelled from the spec: MMU::ReadFromHardware (MMU.cpp, not under
src/). Same resolution order as the write path; a failed translation
yields zero (flagged upstream in probing modes, accompanied by the guest
fault in excepting modes). -/
def MMU.ReadFromHardware (flag : XCheckTLBFlag) (size : Nat)
    (never_translate : Bool) (s : MachineState) (em_address : Nat) :
    Nat × MachineState :=
  if never_translate || !s.msr_DR then
    (readPhysical s (em_address % 2 ^ 32) size, s)
  else
    match MMU.TranslateAddress flag s em_address with
    | (res, s1) =>
        if res.Success then (readPhysical s1 res.address size, s1)
        else if IsNoExceptionFlag flag then (0, s1)
        else (0, raiseTranslationFault flag s1)

/-- MMU::HostTryRead from MMU.h: the HostIsRAMAddress gate first, then per
requested space: Effective reads with translation per current state and
reports MSR.DR as the translated flag; Physical reads with never_translate
and reports false; Virtual fails when MSR.DR is off and otherwise reads
with translation and reports true. size is sizeof(T). -/
def MMU.HostTryRead (s : MachineState) (size address : Nat)
    (space : RequestedAddressSpace) : Option (ReadResult Nat) × MachineState :=
  if !s.isRAM space address then (none, s)
  else
    match space with
    | RequestedAddressSpace.Effective =>
        match MMU.ReadFromHardware XCheckTLBFlag.NoException size false s address with
        | (value, s1) => (some ⟨s1.msr_DR, value⟩, s1)
    | RequestedAddressSpace.Physical =>
        match MMU.ReadFromHardware XCheckTLBFlag.NoException size true s address with
        | (value, s1) => (some ⟨false, value⟩, s1)
    | RequestedAddressSpace.Virtual =>
        if !s.msr_DR then (none, s)
        else
          match MMU.ReadFromHardware XCheckTLBFlag.NoException size false s address with
          | (value, s1) => (some ⟨true, value⟩, s1)

/-- MMU::HostTryWrite (the non-Size64 overload) from MMU.h: the
HostIsRAMAddress gate first, then per requested space as in HostTryRead;
the value is cast to u32 and the low size bytes are written. -/
def MMU.HostTryWrite (s : MachineState) (size v address : Nat)
    (space : RequestedAddressSpace) : Option WriteResult × MachineState :=
  if !s.isRAM space address then (none, s)
  else
    match space with
    | RequestedAddressSpace.Effective =>
        let s1 := MMU.WriteToHardware XCheckTLBFlag.NoException false s address (v % 2 ^ 32) size
        (some ⟨s1.msr_DR⟩, s1)
    | RequestedAddressSpace.Physical =>
        let s1 := MMU.WriteToHardware XCheckTLBFlag.NoException true s address (v % 2 ^ 32) size
        (some ⟨false⟩, s1)
    | RequestedAddressSpace.Virtual =>
        if !s.msr_DR then (none, s)
        else
          let s1 := MMU.WriteToHardware XCheckTLBFlag.NoException false s address (v % 2 ^ 32) size
          (some ⟨true⟩, s1)

/-- MMU::HostTryWrite (the Size64 overload) from MMU.h: the high u32 word
of v is written at address; only if that sub-write produced a result is
the low word written at address + 4 (u32 address arithmetic), whose result
is returned. -/
def MMU.HostTryWrite64 (s : MachineState) (v address : Nat)
    (space : RequestedAddressSpace) : Option WriteResult × MachineState :=
  match MMU.HostTryWrite s 4 ((v >>> 32) % 2 ^ 32) address space with
  | (none, s1) => (none, s1)
  | (some r, s1) =>
      let _ := r
      MMU.HostTryWrite s1 4 (v % 2 ^ 32) ((address + 4) % 2 ^ 32) space

/-- MMU::HostWrite (the Size64 overload) from MMU.h: unconditionally
writes the high u32 word at address and then the low word at
address + sizeof(u32), both through WriteToHardware with the NoException
flag. -/
def MMU.HostWrite64 (s : MachineState) (v address : Nat) : MachineState :=
  let s1 := MMU.WriteToHardware XCheckTLBFlag.NoException false s address
    ((v >>> 32) % 2 ^ 32) 4
  MMU.WriteToHardware XCheckTLBFlag.NoException false s1 ((address + 4) % 2 ^ 32)
    (v % 2 ^ 32) 4

/-- Modelled from the spec: MMU::Memcheck (MMU.cpp, not under src/) is the
memory-breakpoint hook inspecting every guest access; per the spec it must
not alter the read or written result, so it is the identity on the state
modelled here (debugger-break state is outside this model). -/
def MMU.Memcheck (s : MachineState) (address v : Nat) (write : Bool)
    (size : Nat) : MachineState :=
  let _ := address
  let _ := v
  let _ := write
  let _ := size
  s

/-- MMU::Write (the Size64 overload) from MMU.h: Memcheck on the full
value, then the high u32 word is written at address and the low word at
address + sizeof(u32), both through WriteToHardware with the Write flag. -/
def MMU.Write64 (s : MachineState) (v address : Nat) : MachineState :=
  let s0 := MMU.Memcheck s address v true 8
  let s1 := MMU.WriteToHardware XCheckTLBFlag.Write false s0 address
    ((v >>> 32) % 2 ^ 32) 4
  MMU.WriteToHardware XCheckTLBFlag.Write false s1 ((address + 4) % 2 ^ 32)
    (v % 2 ^ 32) 4

/-- A big-endian store leaves every byte outside its footprint unchanged. -/
theorem writeBytesBE_frame (n : Nat) :
    ∀ (ram : Nat → Nat) (addr v x : Nat), addr + n ≤ 2 ^ 32 → x < 2 ^ 32 →
      (x < addr ∨ addr + n ≤ x) → writeBytesBE ram addr n v x = ram x := by
  induction n with
  | zero => intro ram addr v x _ _ _; rfl
  | succ n ih =>
    intro ram addr v x h hx hd
    simp only [writeBytesBE]
    rw [ih _ (addr + 1) v x (by omega) hx (by omega)]
    unfold updateByte
    rw [Nat.mod_eq_of_lt (show addr < 2 ^ 32 by omega), if_neg (by omega)]

/-- Reading back exactly the bytes just stored recovers the stored value
reduced to the access width. -/
theorem writeBytesBE_read (n : Nat) :
    ∀ (ram : Nat → Nat) (addr v : Nat), addr + n ≤ 2 ^ 32 →
      readBytesBE (writeBytesBE ram addr n v) addr n = v % 2 ^ (8 * n) := by
  induction n with
  | zero => intro ram addr v _; simp [readBytesBE, writeBytesBE, Nat.mod_one]
  | succ n ih =>
    intro ram addr v h
    have haddr : addr < 2 ^ 32 := by omega
    simp only [writeBytesBE, readBytesBE]
    rw [Nat.mod_eq_of_lt haddr]
    rw [writeBytesBE_frame n _ (addr + 1) v addr (by omega) haddr (by omega)]
    rw [ih _ (addr + 1) v (by omega)]
    unfold updateByte
    rw [if_pos (Nat.mod_eq_of_lt haddr).symm]
    rw [Nat.mod_mod_of_dvd _ dvd_rfl, Nat.shiftRight_eq_div_pow]
    have e1 : v % (2 ^ (8 * n) * 2 ^ 8) / 2 ^ (8 * n) = v / 2 ^ (8 * n) % 2 ^ 8 :=
      Nat.mod_mul_right_div_self v (2 ^ (8 * n)) (2 ^ 8)
    have e2 : v % (2 ^ (8 * n) * 2 ^ 8) % 2 ^ (8 * n) = v % 2 ^ (8 * n) :=
      Nat.mod_mod_of_dvd v ⟨2 ^ 8, rfl⟩
    have key := Nat.div_add_mod (v % (2 ^ (8 * n) * 2 ^ 8)) (2 ^ (8 * n))
    rw [e1, e2, Nat.mul_comm (2 ^ (8 * n)) _] at key
    rw [Nat.mul_succ, pow_add]
    exact key

/-- A big-endian load only depends on the bytes inside its footprint. -/
theorem readBytesBE_congr (n : Nat) :
    ∀ (r1 r2 : Nat → Nat) (addr : Nat), addr + n ≤ 2 ^ 32 →
      (∀ i, i < n → r1 (addr + i) = r2 (addr + i)) →
      readBytesBE r1 addr n = readBytesBE r2 addr n := by
  induction n with
  | zero => intro r1 r2 addr _ _; rfl
  | succ n ih =>
    intro r1 r2 addr h he
    simp only [readBytesBE]
    rw [Nat.mod_eq_of_lt (show addr < 2 ^ 32 by omega)]
    have h0 : r1 addr = r2 addr := by
      have := he 0 (by omega)
      simpa using this
    rw [h0, ih r1 r2 (addr + 1) (by omega)]
    intro i hi
    have e : addr + 1 + i = addr + (i + 1) := by omega
    rw [e]
    exact he (i + 1) (by omega)

/-- A big-endian load of m + n bytes is the load of the first m bytes glued
above the load of the following n bytes. -/
theorem readBytesBE_split (m : Nat) :
    ∀ (n : Nat) (ram : Nat → Nat) (addr : Nat),
      readBytesBE ram addr (m + n) =
        readBytesBE ram addr m * 2 ^ (8 * n) + readBytesBE ram (addr + m) n := by
  induction m with
  | zero => intro n ram addr; simp [readBytesBE]
  | succ m ih =>
    intro n ram addr
    have e : m + 1 + n = (m + n) + 1 := by omega
    rw [e]
    simp only [readBytesBE]
    rw [ih n ram (addr + 1)]
    rw [show addr + (m + 1) = addr + 1 + m from by omega]
    rw [show 8 * (m + n) = 8 * m + 8 * n from by omega, pow_add]
    ring

/-- A raw physical write changes at most the ram component of the state. -/
theorem writePhysical_shape (s : MachineState) (p d n : Nat) :
    ∃ r, writePhysical s p d n = { s with ram := r } := by
  unfold writePhysical
  split
  · exact ⟨s.ram, rfl⟩
  · exact ⟨_, rfl⟩

/-- A raw physical write at a non-MMIO address is exactly the big-endian
store into ram. -/
theorem writePhysical_not_mmio (s : MachineState) (p d n : Nat)
    (h : s.mmio p = false) :
    writePhysical s p d n = { s with ram := writeBytesBE s.ram p n d } := by
  unfold writePhysical
  rw [h]
  simp

/-- A raw physical read at a non-MMIO address is exactly the big-endian
load from ram. -/
theorem readPhysical_not_mmio (s : MachineState) (p n : Nat)
    (h : s.mmio p = false) :
    readPhysical s p n = readBytesBE s.ram p n := by
  unfold readPhysical
  rw [h]
  simp

/-- The paged translation in a probing mode returns the state unchanged. -/
theorem translatePageAddress_state_noexc (flag : XCheckTLBFlag)
    (s : MachineState) (ea : EffectiveAddress)
    (h : IsNoExceptionFlag flag = true) :
    (MMU.TranslatePageAddress flag s ea).2 = s := by
  unfold MMU.TranslatePageAddress
  cases hT : (s.sr ea.SR).T
  · simp only [hT, Bool.false_eq_true, if_false]
    cases hm : findMatch ea.API (s.sr ea.SR).VSID
        (s.ptegs (pteHash (s.sr ea.SR).VSID ea.page_index))
    · simp [hm]
    · simp [hm, h]
  · simp [hT]

/-- The full translation in a probing mode returns the state unchanged. -/
theorem translateAddress_state_noexc (flag : XCheckTLBFlag)
    (s : MachineState) (a : Nat) (h : IsNoExceptionFlag flag = true) :
    (MMU.TranslateAddress flag s a).2 = s := by
  unfold MMU.TranslateAddress
  split <;> dsimp only <;> split <;>
    first
      | rfl
      | exact translatePageAddress_state_noexc flag s _ h

/-- A hardware write in a probing mode changes at most ram: no exception is
raised and no page-table entry is touched. -/
theorem writeToHardware_noexc_shape (flag : XCheckTLBFlag) (nt : Bool)
    (s : MachineState) (a d n : Nat) (h : IsNoExceptionFlag flag = true) :
    ∃ r, MMU.WriteToHardware flag nt s a d n = { s with ram := r } := by
  unfold MMU.WriteToHardware
  split
  · exact writePhysical_shape s _ d n
  · have hTA := translateAddress_state_noexc flag s a h
    rcases hEq : MMU.TranslateAddress flag s a with ⟨res, s1⟩
    have hs1 : s1 = s := by rw [hEq] at hTA; exact hTA
    subst hs1
    dsimp only
    split
    · exact writePhysical_shape _ _ d n
    · exact ⟨_, rfl⟩

/-- A hardware read in a probing mode returns the state unchanged. -/
theorem readFromHardware_noexc_state (flag : XCheckTLBFlag) (n : Nat)
    (nt : Bool) (s : MachineState) (a : Nat)
    (h : IsNoExceptionFlag flag = true) :
    (MMU.ReadFromHardware flag n nt s a).2 = s := by
  unfold MMU.ReadFromHardware
  split
  · rfl
  · have hTA := translateAddress_state_noexc flag s a h
    rcases hEq : MMU.TranslateAddress flag s a with ⟨res, s1⟩
    have hs1 : s1 = s := by rw [hEq] at hTA; exact hTA
    subst hs1
    dsimp only
    split
    · rfl
    · rfl

/-- A failed HostTryWrite leaves the state exactly as it was. -/
theorem hostTryWrite_none_state (s : MachineState) (size v a : Nat)
    (space : RequestedAddressSpace)
    (h : (MMU.HostTryWrite s size v a space).1 = none) :
    MMU.HostTryWrite s size v a space = (none, s) := by
  unfold MMU.HostTryWrite at h ⊢
  cases hr : s.isRAM space a
  · simp [hr]
  · cases space
    · simp [hr] at h
    · simp [hr] at h
    · cases hDR : s.msr_DR
      · simp [hr, hDR]
      · simp [hr, hDR] at h

/-- Searching a group after its first matching entry was rewritten by a
field-preserving update finds the rewritten entry. -/
theorem findMatch_updateMatch (api vsid : Nat) (f : PTE → PTE)
    (hf : ∀ p, (f p).valid = p.valid ∧ (f p).api = p.api ∧ (f p).vsid = p.vsid) :
    ∀ l, findMatch api vsid (updateMatch api vsid f l) =
      Option.map f (findMatch api vsid l) := by
  intro l
  induction l with
  | nil => rfl
  | cons p rest ih =>
    by_cases hp : (p.valid && (p.api == api) && (p.vsid == vsid)) = true
    · have hfp : ((f p).valid && ((f p).api == api) && ((f p).vsid == vsid)) = true := by
        rw [(hf p).1, (hf p).2.1, (hf p).2.2]
        exact hp
      simp only [updateMatch, findMatch, if_pos hp, if_pos hfp]
      rfl
    · simp only [updateMatch, findMatch, if_neg hp]
      exact ih

/-- A concrete machine: translation on, DBAT page 1 mapped to physical
base 0x40000 (entry 0x40001: base bits plus the mapped flag), empty page
table, zeroed RAM, no MMIO, every address reported as RAM. -/
def stOn : MachineState where
  msr_DR := true
  sr := fun _ => ⟨false, 0⟩
  dbat := fun i => if i = 1 then 0x40001 else 0
  ibat := fun _ => 0
  ptegs := fun _ => []
  ram := fun _ => 0
  mmio := fun _ => false
  mmioVal := fun _ _ => 0
  isRAM := fun _ _ => true
  exceptions := []

/-- The same machine with the data-translation-enable bit off. -/
def stOff : MachineState := { stOn with msr_DR := false }

/-- The same machine but with HostIsRAMAddress reporting false
everywhere. -/
def stNoRam : MachineState := { stOn with isRAM := fun _ _ => false }

/-- Claim C4, counterexample: the BAT lookup table has 32768 entries
(1 << (32 - 17)), not 128K = 131072 entries as the claim states; the
128 KB figure in the source is the byte size of the array of u32. -/
theorem C4_counterexample : BAT_PAGE_COUNT = 32768 ∧ BAT_PAGE_COUNT ≠ 131072 := by
  constructor <;> decide

/-- Claim C4 (amended): the BAT lookup table is indexed by the page number
taken from address bits 17 through 31 and contains 32768 entries (2 ^ 15
entries, i.e. 128 KB of u32 words); each entry packs a physical base with
the three distinct one-bit flags mapped, physical and write-inhibited in
its low bits, which the result mask strips. -/
theorem C4_amended_bat_table_shape :
    BAT_PAGE_COUNT = 2 ^ 15 ∧
    4 * BAT_PAGE_COUNT = 128 * 1024 ∧
    (∀ a : Nat, batIndex a = (a / 2 ^ 17) % 2 ^ 15) ∧
    (∀ a : Nat, batIndex a < BAT_PAGE_COUNT) ∧
    BAT_MAPPED_BIT = 2 ^ 0 ∧ BAT_PHYSICAL_BIT = 2 ^ 1 ∧ BAT_WI_BIT = 2 ^ 2 ∧
    BAT_RESULT_MASK &&& (BAT_MAPPED_BIT ||| BAT_PHYSICAL_BIT ||| BAT_WI_BIT) = 0 ∧
    BAT_RESULT_MASK ||| (BAT_MAPPED_BIT ||| BAT_PHYSICAL_BIT ||| BAT_WI_BIT) = 2 ^ 32 - 1 ∧
    (∀ e : Nat,
      (e &&& BAT_RESULT_MASK) &&& (BAT_MAPPED_BIT ||| BAT_PHYSICAL_BIT ||| BAT_WI_BIT) = 0) := by
  have h7 : BAT_RESULT_MASK &&& (BAT_MAPPED_BIT ||| BAT_PHYSICAL_BIT ||| BAT_WI_BIT) = 0 := by
    decide
  refine ⟨by decide, by decide, ?_, ?_, by decide, by decide, by decide, h7, by decide, ?_⟩
  · intro a
    unfold batIndex BAT_INDEX_SHIFT
    rw [Nat.shiftRight_eq_div_pow]
    omega
  · intro a
    simp only [batIndex, BAT_PAGE_COUNT, BAT_INDEX_SHIFT]
    rw [Nat.shiftRight_eq_div_pow, Nat.shiftLeft_eq]
    omega
  · intro e
    rw [Nat.and_assoc, h7, Nat.and_zero]

/-- Claim C5: a translation result is a Success exactly when its kind is
BAT-translated or page-table-translated, i.e. any kind except
direct-store-segment and page-fault. -/
theorem C5_success_kinds (r : TranslateAddressResult) :
    (r.Success = true ↔
      (r.result = TranslateAddressResultEnum.BAT_TRANSLATED ∨
        r.result = TranslateAddressResultEnum.PAGE_TABLE_TRANSLATED)) ∧
    (r.Success = true ↔
      ¬(r.result = TranslateAddressResultEnum.DIRECT_STORE_SEGMENT ∨
        r.result = TranslateAddressResultEnum.PAGE_FAULT)) := by
  obtain ⟨a, res, wi⟩ := r
  cases res <;>
    simp [TranslateAddressResult.Success, TranslateAddressResultEnum.toNat]

/-- Witness for C5: a BAT-translated result is a Success. -/
theorem C5_witness :
    TranslateAddressResult.Success
      ⟨0x1000, TranslateAddressResultEnum.BAT_TRANSLATED, false⟩ = true :=
  ((C5_success_kinds
      ⟨0x1000, TranslateAddressResultEnum.BAT_TRANSLATED, false⟩).1).2 (Or.inl rfl)

/-- Claim C6: the EffectiveAddress view splits a 32-bit guest address into
offset (bits 0 to 11), page index (bits 12 to 27), abbreviated page index
API (bits 22 to 27, the top six bits of the page index) and
segment-register index SR (bits 28 to 31), and keeps the underlying value
unchanged: the fields reassemble to the original address. -/
theorem C6_effective_address_fields (x : Nat) (hx : x < 2 ^ 32) :
    (EffectiveAddress.ofAddress x).Hex = x ∧
    (EffectiveAddress.ofAddress x).offset = x % 2 ^ 12 ∧
    (EffectiveAddress.ofAddress x).page_index = (x / 2 ^ 12) % 2 ^ 16 ∧
    (EffectiveAddress.ofAddress x).API = (x / 2 ^ 22) % 2 ^ 6 ∧
    (EffectiveAddress.ofAddress x).SR = (x / 2 ^ 28) % 2 ^ 4 ∧
    (EffectiveAddress.ofAddress x).API = (EffectiveAddress.ofAddress x).page_index / 2 ^ 10 ∧
    x = (EffectiveAddress.ofAddress x).offset +
        2 ^ 12 * (EffectiveAddress.ofAddress x).page_index +
        2 ^ 28 * (EffectiveAddress.ofAddress x).SR := by
  have hmod : x % 2 ^ 32 = x := Nat.mod_eq_of_lt hx
  simp only [EffectiveAddress.ofAddress, EffectiveAddress.offset,
    EffectiveAddress.page_index, EffectiveAddress.API, EffectiveAddress.SR,
    hmod, Nat.shiftRight_eq_div_pow]
  refine ⟨trivial, trivial, trivial, trivial, trivial, ?_, ?_⟩ <;> omega

/-- Witness for C6 at the address 0x89ABCDEF: its segment-register index
is 8. -/
theorem C6_witness : (EffectiveAddress.ofAddress 0x89ABCDEF).SR = 8 :=
  ((C6_effective_address_fields 0x89ABCDEF (by decide)).2.2.2.2.1).trans (by decide)

/-- HostTryRead fails without touching the state when HostIsRAMAddress
reports false. -/
theorem hostTryRead_noRam (s : MachineState) (size a : Nat)
    (space : RequestedAddressSpace) (hr : s.isRAM space a = false) :
    MMU.HostTryRead s size a space = (none, s) := by
  unfold MMU.HostTryRead
  simp [hr]

/-- HostTryWrite fails without touching the state when HostIsRAMAddress
reports false. -/
theorem hostTryWrite_noRam (s : MachineState) (size v a : Nat)
    (space : RequestedAddressSpace) (hr : s.isRAM space a = false) :
    MMU.HostTryWrite s size v a space = (none, s) := by
  unfold MMU.HostTryWrite
  simp [hr]

/-- The Effective-space HostTryRead result: flag MSR.DR, state returned
unchanged by the probing read. -/
theorem hostTryRead_eff (s : MachineState) (size a : Nat)
    (hr : s.isRAM RequestedAddressSpace.Effective a = true) :
    MMU.HostTryRead s size a RequestedAddressSpace.Effective =
      (some ⟨s.msr_DR,
        (MMU.ReadFromHardware XCheckTLBFlag.NoException size false s a).1⟩, s) := by
  have hs := readFromHardware_noexc_state XCheckTLBFlag.NoException size false s a rfl
  rcases hRd : MMU.ReadFromHardware XCheckTLBFlag.NoException size false s a with ⟨value, s2⟩
  rw [hRd] at hs
  simp only at hs
  unfold MMU.HostTryRead
  rw [hRd]
  simp [hr, hs]

/-- The Physical-space HostTryRead result: flag false, never-translate
read, state unchanged. -/
theorem hostTryRead_phys (s : MachineState) (size a : Nat)
    (hr : s.isRAM RequestedAddressSpace.Physical a = true) :
    MMU.HostTryRead s size a RequestedAddressSpace.Physical =
      (some ⟨false,
        (MMU.ReadFromHardware XCheckTLBFlag.NoException size true s a).1⟩, s) := by
  unfold MMU.HostTryRead MMU.ReadFromHardware
  simp [hr]

/-- The Virtual-space HostTryRead result with translation on: flag true,
state unchanged. -/
theorem hostTryRead_virt (s : MachineState) (size a : Nat)
    (hr : s.isRAM RequestedAddressSpace.Virtual a = true)
    (hDR : s.msr_DR = true) :
    MMU.HostTryRead s size a RequestedAddressSpace.Virtual =
      (some ⟨true,
        (MMU.ReadFromHardware XCheckTLBFlag.NoException size false s a).1⟩, s) := by
  have hs := readFromHardware_noexc_state XCheckTLBFlag.NoException size false s a rfl
  rcases hRd : MMU.ReadFromHardware XCheckTLBFlag.NoException size false s a with ⟨value, s2⟩
  rw [hRd] at hs
  simp only at hs
  unfold MMU.HostTryRead
  rw [hRd]
  simp [hr, hDR, hs]

/-- The Virtual-space HostTryRead is absent whenever MSR.DR is off. -/
theorem hostTryRead_virt_off (s : MachineState) (size a : Nat)
    (hDR : s.msr_DR = false) :
    MMU.HostTryRead s size a RequestedAddressSpace.Virtual = (none, s) := by
  unfold MMU.HostTryRead
  cases hr : s.isRAM RequestedAddressSpace.Virtual a <;> simp [hr, hDR]

/-- The Effective-space HostTryWrite result: flag MSR.DR, state is the
probing hardware write. -/
theorem hostTryWrite_eff (s : MachineState) (size v a : Nat)
    (hr : s.isRAM RequestedAddressSpace.Effective a = true) :
    MMU.HostTryWrite s size v a RequestedAddressSpace.Effective =
      (some ⟨s.msr_DR⟩,
        MMU.WriteToHardware XCheckTLBFlag.NoException false s a (v % 2 ^ 32) size) := by
  obtain ⟨r, hW⟩ :=
    writeToHardware_noexc_shape XCheckTLBFlag.NoException false s a (v % 2 ^ 32) size rfl
  unfold MMU.HostTryWrite
  rw [hW]
  simp [hr]

/-- The Physical-space HostTryWrite result: flag false, never-translate
hardware write. -/
theorem hostTryWrite_phys (s : MachineState) (size v a : Nat)
    (hr : s.isRAM RequestedAddressSpace.Physical a = true) :
    MMU.HostTryWrite s size v a RequestedAddressSpace.Physical =
      (some ⟨false⟩,
        MMU.WriteToHardware XCheckTLBFlag.NoException true s a (v % 2 ^ 32) size) := by
  unfold MMU.HostTryWrite
  simp [hr]

/-- The Virtual-space HostTryWrite result with translation on: flag true. -/
theorem hostTryWrite_virt (s : MachineState) (size v a : Nat)
    (hr : s.isRAM RequestedAddressSpace.Virtual a = true)
    (hDR : s.msr_DR = true) :
    MMU.HostTryWrite s size v a RequestedAddressSpace.Virtual =
      (some ⟨true⟩,
        MMU.WriteToHardware XCheckTLBFlag.NoException false s a (v % 2 ^ 32) size) := by
  unfold MMU.HostTryWrite
  simp [hr, hDR]

/-- The Virtual-space HostTryWrite is absent whenever MSR.DR is off. -/
theorem hostTryWrite_virt_off (s : MachineState) (size v a : Nat)
    (hDR : s.msr_DR = false) :
    MMU.HostTryWrite s size v a RequestedAddressSpace.Virtual = (none, s) := by
  unfold MMU.HostTryWrite
  cases hr : s.isRAM RequestedAddressSpace.Virtual a <;> simp [hr, hDR]

/-- Claim C1, counterexample: the claim covers both HostWrite and
HostTryWrite, but the 64-bit HostWrite performs its second 32-bit
sub-write even when the first one fails. With DBAT page 0 unmapped and
page 1 mapped, the high-word sub-write at 0x1FFFC fails (the state comes
back unchanged), yet HostWrite64 still performs the low-word sub-write at
0x20000, which lands at translated physical address 0x40000 and changes
RAM there. -/
theorem C1_counterexample :
    MMU.WriteToHardware XCheckTLBFlag.NoException false stOn 0x1FFFC 0x11223344 4 = stOn ∧
    stOn.ram 0x40000 = 0 ∧
    (MMU.HostWrite64 stOn 0x1122334455667788 0x1FFFC).ram 0x40000 = 0x55 := by
  refine ⟨rfl, rfl, ?_⟩
  decide

/-- Claim C1 (amended): the 64-bit host write is performed as two 32-bit
sub-writes; for HostTryWrite, if the first (high-word) sub-write fails,
the second sub-write is not attempted and the overall result is absent
with the state unchanged. HostWrite, in contrast, performs both sub-writes
unconditionally (see the counterexample). -/
theorem C1_hostTryWrite64_short_circuit (s : MachineState) (v a : Nat)
    (space : RequestedAddressSpace)
    (h : (MMU.HostTryWrite s 4 ((v >>> 32) % 2 ^ 32) a space).1 = none) :
    MMU.HostTryWrite64 s v a space = (none, s) := by
  have hfull := hostTryWrite_none_state s 4 ((v >>> 32) % 2 ^ 32) a space h
  unfold MMU.HostTryWrite64
  rw [hfull]

/-- Witness for the amended C1: with HostIsRAMAddress reporting false
everywhere, the first sub-write fails and the composite 64-bit try-write
returns absent with the state unchanged. -/
theorem C1_witness :
    MMU.HostTryWrite64 stNoRam 0x1122334455667788 0x100
      RequestedAddressSpace.Effective = (none, stNoRam) :=
  C1_hostTryWrite64_short_circuit stNoRam 0x1122334455667788 0x100
    RequestedAddressSpace.Effective rfl

/-- Claim C2: a host access requested in Virtual space is absent whenever
the guest data-translation-enable bit MSR.DR is off; when MSR.DR is on and
the address resolves (HostIsRAMAddress holds), the access is present with
translated = true. -/
theorem C2_virtual_space_gating (s : MachineState) (size v a : Nat) :
    (s.msr_DR = false →
      (MMU.HostTryRead s size a RequestedAddressSpace.Virtual).1 = none ∧
      (MMU.HostTryWrite s size v a RequestedAddressSpace.Virtual).1 = none) ∧
    (s.msr_DR = true → s.isRAM RequestedAddressSpace.Virtual a = true →
      (∃ res, (MMU.HostTryRead s size a RequestedAddressSpace.Virtual).1 = some res ∧
        res.translated = true) ∧
      (∃ res, (MMU.HostTryWrite s size v a RequestedAddressSpace.Virtual).1 = some res ∧
        res.translated = true)) := by
  constructor
  · intro hDR
    rw [hostTryRead_virt_off s size a hDR, hostTryWrite_virt_off s size v a hDR]
    exact ⟨rfl, rfl⟩
  · intro hDR hr
    rw [hostTryRead_virt s size a hr hDR, hostTryWrite_virt s size v a hr hDR]
    exact ⟨⟨_, rfl, rfl⟩, ⟨_, rfl, rfl⟩⟩

/-- Witness for C2: at a translatable address, the Virtual-space read is
absent with MSR.DR off and present with translated = true with MSR.DR
on. -/
theorem C2_witness :
    (MMU.HostTryRead stOff 4 0x100 RequestedAddressSpace.Virtual).1 = none ∧
    ∃ res, (MMU.HostTryRead stOn 4 0x100 RequestedAddressSpace.Virtual).1 = some res ∧
      res.translated = true :=
  ⟨((C2_virtual_space_gating stOff 4 0 0x100).1 rfl).1,
    ((C2_virtual_space_gating stOn 4 0 0x100).2 rfl rfl).1⟩

/-- Claim C3: the translated flag of any present host access result is
false when the access was requested in Physical space, equals the current
MSR.DR when requested in Effective space, and is true when requested in
Virtual space. -/
theorem C3_translated_flag (s : MachineState) (size v a : Nat)
    (space : RequestedAddressSpace) :
    (∀ (res : ReadResult Nat) (s1 : MachineState),
      MMU.HostTryRead s size a space = (some res, s1) →
      res.translated = (match space with
        | RequestedAddressSpace.Effective => s.msr_DR
        | RequestedAddressSpace.Physical => false
        | RequestedAddressSpace.Virtual => true)) ∧
    (∀ (res : WriteResult) (s1 : MachineState),
      MMU.HostTryWrite s size v a space = (some res, s1) →
      res.translated = (match space with
        | RequestedAddressSpace.Effective => s.msr_DR
        | RequestedAddressSpace.Physical => false
        | RequestedAddressSpace.Virtual => true)) := by
  constructor
  · intro res s1 hres
    cases hr : s.isRAM space a
    · rw [hostTryRead_noRam s size a space hr] at hres
      simp at hres
    · cases space
      · rw [hostTryRead_eff s size a hr] at hres
        rw [← Option.some.inj (congrArg Prod.fst hres)]
      · rw [hostTryRead_phys s size a hr] at hres
        rw [← Option.some.inj (congrArg Prod.fst hres)]
      · cases hDR : s.msr_DR
        · rw [hostTryRead_virt_off s size a hDR] at hres
          simp at hres
        · rw [hostTryRead_virt s size a hr hDR] at hres
          rw [← Option.some.inj (congrArg Prod.fst hres)]
  · intro res s1 hres
    cases hr : s.isRAM space a
    · rw [hostTryWrite_noRam s size v a space hr] at hres
      simp at hres
    · cases space
      · rw [hostTryWrite_eff s size v a hr] at hres
        rw [← Option.some.inj (congrArg Prod.fst hres)]
      · rw [hostTryWrite_phys s size v a hr] at hres
        rw [← Option.some.inj (congrArg Prod.fst hres)]
      · cases hDR : s.msr_DR
        · rw [hostTryWrite_virt_off s size v a hDR] at hres
          simp at hres
        · rw [hostTryWrite_virt s size v a hr hDR] at hres
          rw [← Option.some.inj (congrArg Prod.fst hres)]

/-- Witness for C3: the concrete Effective-space read result carries
translated = MSR.DR of the machine. -/
theorem C3_witness :
    (⟨true, 0⟩ : ReadResult Nat).translated = stOn.msr_DR :=
  (C3_translated_flag stOn 4 0 0x100 RequestedAddressSpace.Effective).1 ⟨true, 0⟩ stOn rfl

/-- Claim C10: both try-access entry points consult HostIsRAMAddress
first: when it reports false they return an absent result with the state
untouched, and a present result implies the address resolves to RAM in the
requested space. -/
theorem C10_host_access_ram_gate (s : MachineState) (size v a : Nat)
    (space : RequestedAddressSpace) :
    (s.isRAM space a = false →
      MMU.HostTryRead s size a space = (none, s) ∧
      MMU.HostTryWrite s size v a space = (none, s)) ∧
    (∀ (res : ReadResult Nat) (s1 : MachineState),
      MMU.HostTryRead s size a space = (some res, s1) → s.isRAM space a = true) ∧
    (∀ (res : WriteResult) (s1 : MachineState),
      MMU.HostTryWrite s size v a space = (some res, s1) → s.isRAM space a = true) := by
  refine ⟨fun hr => ⟨hostTryRead_noRam s size a space hr,
    hostTryWrite_noRam s size v a space hr⟩, ?_, ?_⟩
  · intro res s1 hres
    cases hr : s.isRAM space a
    · rw [hostTryRead_noRam s size a space hr] at hres
      simp at hres
    · rfl
  · intro res s1 hres
    cases hr : s.isRAM space a
    · rw [hostTryWrite_noRam s size v a space hr] at hres
      simp at hres
    · rfl

/-- Witness for C10: with HostIsRAMAddress false, both try accesses are
absent and the state is untouched. -/
theorem C10_witness :
    MMU.HostTryRead stNoRam 4 0x100 RequestedAddressSpace.Effective = (none, stNoRam) ∧
    MMU.HostTryWrite stNoRam 4 7 0x100 RequestedAddressSpace.Effective = (none, stNoRam) :=
  (C10_host_access_ram_gate stNoRam 4 7 0x100 RequestedAddressSpace.Effective).1 rfl

/-- Claim C7: in a lookup-only probing mode (NoException or
OpcodeNoException) translation raises no guest exception and mutates no
page-table referenced or changed bit: the machine state is returned
untouched by the whole translation and by the hardware access paths, so a
failure is observable only through the returned result; for contrast, the
excepting Write mode updates the matched page-table entry on a hit,
setting its referenced and changed bits. -/
theorem C7_probing_translation_no_side_effects (flag : XCheckTLBFlag)
    (nt : Bool) (s : MachineState) (a d n : Nat)
    (h : IsNoExceptionFlag flag = true) :
    (MMU.TranslateAddress flag s a).2 = s ∧
    (MMU.TranslatePageAddress flag s (EffectiveAddress.ofAddress a)).2 = s ∧
    (MMU.WriteToHardware flag nt s a d n).exceptions = s.exceptions ∧
    (MMU.WriteToHardware flag nt s a d n).ptegs = s.ptegs ∧
    (MMU.ReadFromHardware flag n nt s a).2 = s ∧
    (∀ (ea : EffectiveAddress) (pte : PTE),
      (s.sr ea.SR).T = false →
      findMatch ea.API (s.sr ea.SR).VSID
        (s.ptegs (pteHash (s.sr ea.SR).VSID ea.page_index)) = some pte →
      findMatch ea.API (s.sr ea.SR).VSID
        ((MMU.TranslatePageAddress XCheckTLBFlag.Write s ea).2.ptegs
          (pteHash (s.sr ea.SR).VSID ea.page_index)) =
        some { pte with r := true, c := true }) := by
  obtain ⟨r, hW⟩ := writeToHardware_noexc_shape flag nt s a d n h
  refine ⟨translateAddress_state_noexc flag s a h,
    translatePageAddress_state_noexc flag s _ h, by rw [hW], by rw [hW],
    readFromHardware_noexc_state flag n nt s a h, ?_⟩
  intro ea pte hT hm
  have hf : ∀ p : PTE, (setPteBits XCheckTLBFlag.Write p).valid = p.valid ∧
      (setPteBits XCheckTLBFlag.Write p).api = p.api ∧
      (setPteBits XCheckTLBFlag.Write p).vsid = p.vsid :=
    fun p => ⟨rfl, rfl, rfl⟩
  unfold MMU.TranslatePageAddress
  dsimp only
  rw [if_neg (show ¬(s.sr ea.SR).T = true by simp [hT])]
  rw [hm]
  dsimp only
  rw [if_neg (show ¬IsNoExceptionFlag XCheckTLBFlag.Write = true from by decide)]
  dsimp only
  rw [if_pos rfl]
  rw [findMatch_updateMatch ea.API (s.sr ea.SR).VSID (setPteBits XCheckTLBFlag.Write) hf, hm]
  rfl

/-- Witness for C7: probing translation and a probing hardware write at a
faulting address leave the concrete machine untouched. -/
theorem C7_witness :
    (MMU.TranslateAddress XCheckTLBFlag.NoException stOn 0x1234).2 = stOn ∧
    (MMU.WriteToHardware XCheckTLBFlag.OpcodeNoException false stOn 0x1234 7 4).exceptions =
      stOn.exceptions :=
  ⟨(C7_probing_translation_no_side_effects XCheckTLBFlag.NoException false stOn
      0x1234 7 4 rfl).1,
    (C7_probing_translation_no_side_effects XCheckTLBFlag.OpcodeNoException false stOn
      0x1234 7 4 rfl).2.2.1⟩

/-- A never-translate hardware write is a raw physical write. -/
theorem writeToHardware_never_translate (flag : XCheckTLBFlag)
    (s : MachineState) (a d n : Nat) :
    MMU.WriteToHardware flag true s a d n = writePhysical s (a % 2 ^ 32) d n := by
  unfold MMU.WriteToHardware
  simp

/-- With the translation-enable bit clear, a hardware write treats the
address as physical directly. -/
theorem writeToHardware_dr_off (flag : XCheckTLBFlag) (nt : Bool)
    (s : MachineState) (hDR : s.msr_DR = false) (a d n : Nat) :
    MMU.WriteToHardware flag nt s a d n = writePhysical s (a % 2 ^ 32) d n := by
  unfold MMU.WriteToHardware
  simp [hDR]

/-- A never-translate hardware read is a raw physical read with the state
unchanged. -/
theorem readFromHardware_never_translate (flag : XCheckTLBFlag)
    (s : MachineState) (a n : Nat) :
    MMU.ReadFromHardware flag n true s a = (readPhysical s (a % 2 ^ 32) n, s) := by
  unfold MMU.ReadFromHardware
  simp

/-- Reading back a pair of adjacent 4-byte big-endian stores: the 8-byte
load glues the two words, and each 4-byte load recovers its word. -/
theorem writeBytesBE_pair_read (ram : Nat → Nat) (a hi lo : Nat)
    (h8 : a + 8 ≤ 2 ^ 32) :
    readBytesBE (writeBytesBE (writeBytesBE ram a 4 hi) (a + 4) 4 lo) a 4 = hi % 2 ^ 32 ∧
    readBytesBE (writeBytesBE (writeBytesBE ram a 4 hi) (a + 4) 4 lo) (a + 4) 4 = lo % 2 ^ 32 ∧
    readBytesBE (writeBytesBE (writeBytesBE ram a 4 hi) (a + 4) 4 lo) a 8 =
      (hi % 2 ^ 32) * 2 ^ 32 + lo % 2 ^ 32 := by
  have hinner : ∀ i, i < 4 →
      writeBytesBE (writeBytesBE ram a 4 hi) (a + 4) 4 lo (a + i) =
        writeBytesBE ram a 4 hi (a + i) := by
    intro i hi4
    exact writeBytesBE_frame 4 _ (a + 4) lo (a + i) (by omega) (by omega) (by omega)
  have e4 : readBytesBE (writeBytesBE (writeBytesBE ram a 4 hi) (a + 4) 4 lo) a 4 =
      hi % 2 ^ 32 := by
    rw [readBytesBE_congr 4 _ _ a (by omega) hinner]
    have := writeBytesBE_read 4 ram a hi (by omega)
    simpa using this
  have e5 : readBytesBE (writeBytesBE (writeBytesBE ram a 4 hi) (a + 4) 4 lo) (a + 4) 4 =
      lo % 2 ^ 32 := by
    have := writeBytesBE_read 4 (writeBytesBE ram a 4 hi) (a + 4) lo (by omega)
    simpa using this
  refine ⟨e4, e5, ?_⟩
  have h8eq : readBytesBE (writeBytesBE (writeBytesBE ram a 4 hi) (a + 4) 4 lo) a 8 =
      readBytesBE (writeBytesBE (writeBytesBE ram a 4 hi) (a + 4) 4 lo) a (4 + 4) := rfl
  rw [h8eq, readBytesBE_split 4 4 _ a, e4, e5]

/-- The combined effect of a 64-bit store split into two 32-bit
big-endian stores: high word at the address, low word four bytes later. -/
def pairStore (ram : Nat → Nat) (a v : Nat) : Nat → Nat :=
  writeBytesBE (writeBytesBE ram a 4 ((v >>> 32) % 2 ^ 32)) (a + 4) 4 (v % 2 ^ 32)

/-- Loads from a pair-written byte store: the two 4-byte words give the
high and low halves and the 8-byte load gives the whole value back. -/
theorem pairStore_reads (ram : Nat → Nat) (a v : Nat)
    (h8 : a + 8 ≤ 2 ^ 32) (hv : v < 2 ^ 64) :
    readBytesBE (pairStore ram a v) a 4 = v / 2 ^ 32 ∧
    readBytesBE (pairStore ram a v) (a + 4) 4 = v % 2 ^ 32 ∧
    readBytesBE (pairStore ram a v) a 8 = v := by
  obtain ⟨e4, e5, e8⟩ :=
    writeBytesBE_pair_read ram a ((v >>> 32) % 2 ^ 32) (v % 2 ^ 32) h8
  rw [Nat.shiftRight_eq_div_pow] at e4 e5 e8
  unfold pairStore
  rw [Nat.shiftRight_eq_div_pow]
  refine ⟨?_, ?_, ?_⟩
  · rw [e4]
    omega
  · rw [e5]
    omega
  · rw [e8]
    omega

/-- The 64-bit Physical-space HostTryWrite succeeds and produces exactly
the two adjacent big-endian word stores: the high word at the address, the
low word four bytes later. -/
theorem hostTryWrite64_phys (s : MachineState) (v a : Nat)
    (ha : a + 8 ≤ 2 ^ 32)
    (hr : s.isRAM RequestedAddressSpace.Physical a = true)
    (hr4 : s.isRAM RequestedAddressSpace.Physical (a + 4) = true)
    (hmm : s.mmio a = false) (hmm4 : s.mmio (a + 4) = false) :
    MMU.HostTryWrite64 s v a RequestedAddressSpace.Physical =
      (some ⟨false⟩, { s with ram := pairStore s.ram a v }) := by
  have ha32 : a < 2 ^ 32 := by omega
  have ha432 : a + 4 < 2 ^ 32 := by omega
  unfold MMU.HostTryWrite64 pairStore
  rw [hostTryWrite_phys s 4 ((v >>> 32) % 2 ^ 32) a hr]
  dsimp only
  rw [writeToHardware_never_translate XCheckTLBFlag.NoException s a _ 4,
    Nat.mod_eq_of_lt ha32, Nat.mod_mod_of_dvd _ dvd_rfl,
    writePhysical_not_mmio s a _ 4 hmm]
  rw [Nat.mod_eq_of_lt ha432]
  rw [hostTryWrite_phys
    { s with ram := writeBytesBE s.ram a 4 ((v >>> 32) % 2 ^ 32) } 4 (v % 2 ^ 32) (a + 4) hr4]
  rw [writeToHardware_never_translate XCheckTLBFlag.NoException
    { s with ram := writeBytesBE s.ram a 4 ((v >>> 32) % 2 ^ 32) } (a + 4) _ 4,
    Nat.mod_eq_of_lt ha432, Nat.mod_mod_of_dvd _ dvd_rfl,
    writePhysical_not_mmio
      { s with ram := writeBytesBE s.ram a 4 ((v >>> 32) % 2 ^ 32) } (a + 4) _ 4 hmm4]

/-- The 64-bit HostWrite with translation off: both word stores are
performed, high word first. -/
theorem hostWrite64_dr_off (s : MachineState) (hDR : s.msr_DR = false)
    (v a : Nat) (ha : a + 8 ≤ 2 ^ 32)
    (hmm : s.mmio a = false) (hmm4 : s.mmio (a + 4) = false) :
    MMU.HostWrite64 s v a = { s with ram := pairStore s.ram a v } := by
  have ha32 : a < 2 ^ 32 := by omega
  have ha432 : a + 4 < 2 ^ 32 := by omega
  unfold MMU.HostWrite64 pairStore
  rw [writeToHardware_dr_off XCheckTLBFlag.NoException false s hDR a _ 4,
    Nat.mod_eq_of_lt ha32, writePhysical_not_mmio s a _ 4 hmm]
  try dsimp only
  rw [Nat.mod_eq_of_lt ha432]
  rw [writeToHardware_dr_off XCheckTLBFlag.NoException false
    { s with ram := writeBytesBE s.ram a 4 ((v >>> 32) % 2 ^ 32) } hDR (a + 4) _ 4,
    Nat.mod_eq_of_lt ha432,
    writePhysical_not_mmio
      { s with ram := writeBytesBE s.ram a 4 ((v >>> 32) % 2 ^ 32) } (a + 4) _ 4 hmm4]

/-- The 64-bit guest Write with translation off: both word stores are
performed, high word first. -/
theorem write64_dr_off (s : MachineState) (hDR : s.msr_DR = false)
    (v a : Nat) (ha : a + 8 ≤ 2 ^ 32)
    (hmm : s.mmio a = false) (hmm4 : s.mmio (a + 4) = false) :
    MMU.Write64 s v a = { s with ram := pairStore s.ram a v } := by
  have ha32 : a < 2 ^ 32 := by omega
  have ha432 : a + 4 < 2 ^ 32 := by omega
  unfold MMU.Write64 MMU.Memcheck pairStore
  dsimp only
  rw [writeToHardware_dr_off XCheckTLBFlag.Write false s hDR a _ 4,
    Nat.mod_eq_of_lt ha32, writePhysical_not_mmio s a _ 4 hmm]
  try dsimp only
  rw [Nat.mod_eq_of_lt ha432]
  rw [writeToHardware_dr_off XCheckTLBFlag.Write false
    { s with ram := writeBytesBE s.ram a 4 ((v >>> 32) % 2 ^ 32) } hDR (a + 4) _ 4,
    Nat.mod_eq_of_lt ha432,
    writePhysical_not_mmio
      { s with ram := writeBytesBE s.ram a 4 ((v >>> 32) % 2 ^ 32) } (a + 4) _ 4 hmm4]

/-- Reading each word back from the pair-written state through the
never-translate hardware read recovers the high and low halves. -/
theorem pair_written_state_reads (s : MachineState) (v a : Nat)
    (ha : a + 8 ≤ 2 ^ 32) (hv : v < 2 ^ 64)
    (hmm : s.mmio a = false) (hmm4 : s.mmio (a + 4) = false) :
    (MMU.ReadFromHardware XCheckTLBFlag.NoException 4 true
      { s with ram := pairStore s.ram a v } a).1 = v / 2 ^ 32 ∧
    (MMU.ReadFromHardware XCheckTLBFlag.NoException 4 true
      { s with ram := pairStore s.ram a v } (a + 4)).1 = v % 2 ^ 32 := by
  have ha32 : a < 2 ^ 32 := by omega
  have ha432 : a + 4 < 2 ^ 32 := by omega
  obtain ⟨e4, e5, e8⟩ := pairStore_reads s.ram a v ha hv
  constructor
  · rw [readFromHardware_never_translate]
    dsimp only
    rw [Nat.mod_eq_of_lt ha32,
      readPhysical_not_mmio { s with ram := pairStore s.ram a v } a 4 hmm]
    dsimp only
    exact e4
  · rw [readFromHardware_never_translate]
    dsimp only
    rw [Nat.mod_eq_of_lt ha432,
      readPhysical_not_mmio { s with ram := pairStore s.ram a v } (a + 4) 4 hmm4]
    dsimp only
    exact e5

/-- Writing size bytes in Physical space and reading them back at the same
address returns the written value. -/
theorem hostTry_phys_roundtrip (s : MachineState) (size a v : Nat)
    (hszpos : 0 < size) (hasz : a + size ≤ 2 ^ 32)
    (hv : v < 2 ^ (8 * size)) (hv32 : v < 2 ^ 32)
    (hram : s.isRAM RequestedAddressSpace.Physical a = true)
    (hmm : s.mmio a = false) :
    (MMU.HostTryRead ((MMU.HostTryWrite s size v a RequestedAddressSpace.Physical).2)
      size a RequestedAddressSpace.Physical).1 = some ⟨false, v⟩ := by
  have ha32 : a < 2 ^ 32 := by omega
  rw [hostTryWrite_phys s size v a hram]
  dsimp only
  rw [writeToHardware_never_translate XCheckTLBFlag.NoException s a (v % 2 ^ 32) size,
    Nat.mod_eq_of_lt ha32, Nat.mod_eq_of_lt hv32,
    writePhysical_not_mmio s a v size hmm]
  rw [hostTryRead_phys { s with ram := writeBytesBE s.ram a size v } size a hram]
  dsimp only
  rw [readFromHardware_never_translate XCheckTLBFlag.NoException
    { s with ram := writeBytesBE s.ram a size v } a size]
  dsimp only
  rw [Nat.mod_eq_of_lt ha32,
    readPhysical_not_mmio { s with ram := writeBytesBE s.ram a size v } a size hmm]
  dsimp only
  rw [writeBytesBE_read size s.ram a v hasz, Nat.mod_eq_of_lt hv]

/-- Claim C8: for every aligned address and every width among 8, 16, 32
and 64 bits, writing a value in Physical space and then reading the same
width at the same address in Physical space returns the value (the 64-bit
case goes through the two-word split write and a single 8-byte read). -/
theorem C8_physical_roundtrip (s : MachineState) (size a v a8 v8 : Nat)
    (hsize : size = 1 ∨ size = 2 ∨ size = 4)
    (ha : a < 2 ^ 32) (hal : a % size = 0) (hv : v < 2 ^ (8 * size))
    (hram : s.isRAM RequestedAddressSpace.Physical a = true)
    (hmm : s.mmio a = false)
    (ha8 : a8 < 2 ^ 32) (hal8 : a8 % 8 = 0) (hv8 : v8 < 2 ^ 64)
    (hram8 : s.isRAM RequestedAddressSpace.Physical a8 = true)
    (hram8b : s.isRAM RequestedAddressSpace.Physical (a8 + 4) = true)
    (hmm8 : s.mmio a8 = false) (hmm8b : s.mmio (a8 + 4) = false) :
    (MMU.HostTryWrite s size v a RequestedAddressSpace.Physical).1 = some ⟨false⟩ ∧
    (MMU.HostTryRead ((MMU.HostTryWrite s size v a RequestedAddressSpace.Physical).2)
        size a RequestedAddressSpace.Physical).1 = some ⟨false, v⟩ ∧
    (MMU.HostTryWrite64 s v8 a8 RequestedAddressSpace.Physical).1 = some ⟨false⟩ ∧
    (MMU.HostTryRead ((MMU.HostTryWrite64 s v8 a8 RequestedAddressSpace.Physical).2)
        8 a8 RequestedAddressSpace.Physical).1 = some ⟨false, v8⟩ := by
  have hasz : a + size ≤ 2 ^ 32 := by rcases hsize with h | h | h <;> subst h <;> omega
  have hszpos : 0 < size := by rcases hsize with h | h | h <;> subst h <;> omega
  have hv32 : v < 2 ^ 32 := by rcases hsize with h | h | h <;> subst h <;> omega
  have ha8sz : a8 + 8 ≤ 2 ^ 32 := by omega
  refine ⟨?_, hostTry_phys_roundtrip s size a v hszpos hasz hv hv32 hram hmm, ?_, ?_⟩
  · rw [hostTryWrite_phys s size v a hram]
  · rw [hostTryWrite64_phys s v8 a8 ha8sz hram8 hram8b hmm8 hmm8b]
  · rw [hostTryWrite64_phys s v8 a8 ha8sz hram8 hram8b hmm8 hmm8b]
    dsimp only
    obtain ⟨e4, e5, e8⟩ := pairStore_reads s.ram a8 v8 ha8sz hv8
    rw [hostTryRead_phys { s with ram := pairStore s.ram a8 v8 } 8 a8 hram8]
    dsimp only
    rw [readFromHardware_never_translate XCheckTLBFlag.NoException
      { s with ram := pairStore s.ram a8 v8 } a8 8]
    dsimp only
    rw [Nat.mod_eq_of_lt ha8,
      readPhysical_not_mmio { s with ram := pairStore s.ram a8 v8 } a8 8 hmm8]
    dsimp only
    rw [e8]

/-- Witness for C8: concrete 32-bit and 64-bit Physical-space round
trips. -/
theorem C8_witness :
    (MMU.HostTryRead ((MMU.HostTryWrite stOn 4 0xDEADBEEF 0x100
        RequestedAddressSpace.Physical).2) 4 0x100 RequestedAddressSpace.Physical).1 =
      some ⟨false, 0xDEADBEEF⟩ ∧
    (MMU.HostTryRead ((MMU.HostTryWrite64 stOn 0x1122334455667788 0x200
        RequestedAddressSpace.Physical).2) 8 0x200 RequestedAddressSpace.Physical).1 =
      some ⟨false, 0x1122334455667788⟩ := by
  have h := C8_physical_roundtrip stOn 4 0x100 0xDEADBEEF 0x200 0x1122334455667788
    (Or.inr (Or.inr rfl)) (by decide) (by decide) (by decide) rfl rfl
    (by decide) (by decide) (by decide) rfl rfl rfl rfl
  exact ⟨h.2.1, h.2.2.2⟩

/-- Claim C9: every 64-bit write path (HostWrite, the guest-facing Write,
and HostTryWrite) stores the most-significant 32 bits at the given address
and the least-significant 32 bits at address + 4, each as an independent
32-bit big-endian write: reading 32 bits back at the address yields the
high word and at address + 4 the low word. -/
theorem C9_64bit_word_order (s : MachineState) (v a : Nat)
    (hDR : s.msr_DR = false) (ha : a + 8 ≤ 2 ^ 32) (hv : v < 2 ^ 64)
    (hmm : s.mmio a = false) (hmm4 : s.mmio (a + 4) = false)
    (hram : s.isRAM RequestedAddressSpace.Physical a = true)
    (hram4 : s.isRAM RequestedAddressSpace.Physical (a + 4) = true) :
    ((MMU.ReadFromHardware XCheckTLBFlag.NoException 4 true
        (MMU.HostWrite64 s v a) a).1 = v / 2 ^ 32 ∧
      (MMU.ReadFromHardware XCheckTLBFlag.NoException 4 true
        (MMU.HostWrite64 s v a) (a + 4)).1 = v % 2 ^ 32) ∧
    ((MMU.ReadFromHardware XCheckTLBFlag.NoException 4 true
        (MMU.Write64 s v a) a).1 = v / 2 ^ 32 ∧
      (MMU.ReadFromHardware XCheckTLBFlag.NoException 4 true
        (MMU.Write64 s v a) (a + 4)).1 = v % 2 ^ 32) ∧
    ((MMU.ReadFromHardware XCheckTLBFlag.NoException 4 true
        (MMU.HostTryWrite64 s v a RequestedAddressSpace.Physical).2 a).1 = v / 2 ^ 32 ∧
      (MMU.ReadFromHardware XCheckTLBFlag.NoException 4 true
        (MMU.HostTryWrite64 s v a RequestedAddressSpace.Physical).2 (a + 4)).1 = v % 2 ^ 32) := by
  have hpair := pair_written_state_reads s v a ha hv hmm hmm4
  rw [hostWrite64_dr_off s hDR v a ha hmm hmm4, write64_dr_off s hDR v a ha hmm hmm4,
    hostTryWrite64_phys s v a ha hram hram4 hmm hmm4]
  exact ⟨hpair, hpair, hpair⟩

/-- Witness for C9: a concrete 64-bit HostWrite stores its high word at
the address and its low word four bytes later. -/
theorem C9_witness :
    (MMU.ReadFromHardware XCheckTLBFlag.NoException 4 true
      (MMU.HostWrite64 stOff 0x0102030405060708 0x300) 0x300).1 = 0x01020304 ∧
    (MMU.ReadFromHardware XCheckTLBFlag.NoException 4 true
      (MMU.HostWrite64 stOff 0x0102030405060708 0x300) 0x304).1 = 0x05060708 :=
  (C9_64bit_word_order stOff 0x0102030405060708 0x300 rfl (by decide) (by decide)
    rfl rfl rfl rfl).1
